import Mathlib

/-!
Shallow embedding of `CopySnapshot.py` (and `P4Server.getCounter` from
`test/TestP4Transfer.py`) from the p4transfer repository, together with
theorems settling the claims about it.

Server replies (tagged output of `p4` commands) are modelled as association
lists from string keys to string values, mirroring the Python dictionaries
returned by the P4 client library.  Python dictionaries built by the script
itself are modelled as association lists with insertion-order-preserving
update (`dinsert`), which is exactly the semantics of CPython dicts.
-/

namespace CopySnapshot

/-- Server reply record: a Python dict with string keys and string values. -/
abbrev Rec := List (String × String)

/-- Lookup in an association list (Python `d[k]` / `k in d`). -/
def dget {α : Type} (m : List (String × α)) (k : String) : Option α :=
  match m with
  | [] => none
  | (k', v) :: rest => if k' == k then some v else dget rest k

/-- Python dict assignment `d[k] = v`: replaces in place when the key exists,
appends otherwise (insertion order preserved). -/
def dinsert {α : Type} (m : List (String × α)) (k : String) (v : α) :
    List (String × α) :=
  match m with
  | [] => [(k, v)]
  | (k', v') :: rest =>
      if k' == k then (k, v) :: rest else (k', v') :: dinsert rest k v

/-- ASCII lower-casing of one character, as Python `str.lower` acts on the
ASCII paths handled by the script. -/
def lowerChar (c : Char) : Char :=
  if 'A' ≤ c && c ≤ 'Z' then Char.ofNat (c.toNat + 32) else c

/-- Python `s.lower()` restricted to ASCII. -/
def pyLower (s : String) : String :=
  String.mk (s.toList.map lowerChar)

/-- List-level check that the first list is an initial segment of the second. -/
def isPrefixL : List Char → List Char → Bool
  | [], _ => true
  | _ :: _, [] => false
  | a :: as, b :: bs => a == b && isPrefixL as bs

/-- Substring test on character lists. -/
def subIn (needle : List Char) : List Char → Bool
  | [] => needle.isEmpty
  | c :: rest => isPrefixL needle (c :: rest) || subIn needle rest

/-- Python `needle in hay` for strings: substring membership. -/
def pyIn (needle hay : String) : Bool :=
  subIn needle.toList hay.toList

/-- Python `s.split("@")[0]`: the text before the first `@` (the whole string
when no `@` is present). -/
def beforeFirstAt (s : String) : String :=
  String.mk (s.toList.takeWhile (fun c => c ≠ '@'))

/-- Value of a Python variable that holds either an `int` or a `str` (the
`fileSize` attribute of `FileRev` starts as the int `0` and is overwritten
with the string from the fstat record when present).  Python `==` between an
int and a str is `False`, which is exactly the derived equality here. -/
inductive PyVal where
  | int (n : Int)
  | str (s : String)
deriving DecidableEq

/-- Embedding of class `FileRev` (CopySnapshot.py lines 66-104): one head
revision read from an fstat record. -/
structure FileRev where
  depotFile : String
  action : String
  digest : String
  fileSize : PyVal
  rev : String
  change : String
  type : String
  localFile : String
  fixedLocalFile : String
deriving DecidableEq

/-- Embedding of `FileRev.__init__` (lines 67-80): reads the required keys
`depotFile`, `headAction`, `headRev`, `headChange`, `headType` (a missing one
raises `KeyError`, modelled as `none`); `digest` defaults to `""` and
`fileSize` to the int `0` when the optional keys are absent. -/
def mkFileRev (f : Rec) : Option FileRev := do
  let depotFile ← dget f "depotFile"
  let action ← dget f "headAction"
  let digest := (dget f "digest").getD ""
  let fileSize := match dget f "fileSize" with
    | some s => PyVal.str s
    | none => PyVal.int 0
  let rev ← dget f "headRev"
  let change ← dget f "headChange"
  let type ← dget f "headType"
  pure { depotFile := depotFile, action := action, digest := digest,
         fileSize := fileSize, rev := rev, change := change, type := type,
         localFile := "", fixedLocalFile := "" }

/-- Tail of `FileRev.__eq__` (lines 100-104), after the filename test: equal
when both actions contain `delete`, otherwise when the `(fileSize, digest)`
pairs coincide. -/
def fileRevEqTail (a b : FileRev) : Bool :=
  if pyIn "delete" a.action && pyIn "delete" b.action then true
  else if !(a.fileSize == b.fileSize && a.digest == b.digest) then false
  else true

/-- Embedding of `FileRev.__eq__` (lines 92-104).  The module-global
`caseSensitive` flag is passed explicitly as `cs`. -/
def fileRevEq (cs : Bool) (a b : FileRev) : Bool :=
  if cs then
    if a.localFile != b.localFile then false
    else fileRevEqTail a b
  else
    if pyLower a.localFile != pyLower b.localFile then false
    else fileRevEqTail a b

/-- Loop body of `CopySnapshot.getFilesToAdd` (lines 152-161), with the
accumulated dict made explicit.  For each fstat record: read `depotFile`
(KeyError when absent), lower-case it when not case sensitive, build the
`FileRev` (KeyError when a required key is absent), and store it under the
key unless its action contains `delete`. -/
def getFilesToAddAux (cs : Bool) (acc : List (String × FileRev)) :
    List Rec → Except String (List (String × FileRev))
  | [] => .ok acc
  | f :: rest =>
    match dget f "depotFile" with
    | none => .error "KeyError: depotFile"
    | some d =>
      let fname := if cs then d else pyLower d
      match mkFileRev f with
      | none => .error "KeyError: FileRev"
      | some rev =>
        if pyIn "delete" rev.action then getFilesToAddAux cs acc rest
        else getFilesToAddAux cs (dinsert acc fname rev) rest

/-- Embedding of `CopySnapshot.getFilesToAdd` (lines 152-161). -/
def getFilesToAdd (cs : Bool) (fstat : List Rec) :
    Except String (List (String × FileRev)) :=
  getFilesToAddAux cs [] fstat

/-- Loop body building `localFiles` in `CopySnapshot.run` (lines 178-183):
for each record of the `have` reply, key the local `path` by the
`depotFile`, lower-cased when not case sensitive. -/
def buildLocalFilesAux (cs : Bool) (acc : List (String × String)) :
    List Rec → Except String (List (String × String))
  | [] => .ok acc
  | f :: rest =>
    match dget f "depotFile" with
    | none => .error "KeyError: depotFile"
    | some d =>
      let k := if cs then d else pyLower d
      match dget f "path" with
      | none => .error "KeyError: path"
      | some p => buildLocalFilesAux cs (dinsert acc k p) rest

/-- The `localFiles` dict of `CopySnapshot.run` (lines 178-183). -/
def buildLocalFiles (cs : Bool) (haveList : List Rec) :
    Except String (List (String × String)) :=
  buildLocalFilesAux cs [] haveList

/-- Scanner for `re.search("Change ([0-9]+) created", output)` over the
character list of the output (lines 190-193): at each position, a match needs
the literal `Change `, then a non-empty maximal digit run, then the literal
` created`; the captured group is the digit run of the leftmost match.
(With this pattern the greedy digit run cannot backtrack usefully, since a
shorter run would have to be followed by a digit where the pattern demands a
space, so taking the maximal run is exact.) -/
def findCreatedAux : List Char → Option String
  | [] => none
  | c :: rest =>
    if isPrefixL "Change ".toList (c :: rest) then
      let t := (c :: rest).drop 7
      let ds := t.takeWhile Char.isDigit
      if !ds.isEmpty && isPrefixL " created".toList (t.dropWhile Char.isDigit)
      then some (String.mk ds)
      else findCreatedAux rest
    else findCreatedAux rest

/-- The change number extracted from the output of `save_change` by
`re.search("Change ([0-9]+) created", output)` (line 190), `none` when the
regex does not match. -/
def findCreatedChange (output : String) : Option String :=
  findCreatedAux output.toList

/-- One Perforce command issued by `CopySnapshot.run`, in the order the
script issues them.  `add chgno t p` stands for
`p4 add -c chgno -ft t p` (line 205); `revert args` for `p4 revert args`
(line 186); `saveChange d` for saving a fetched change whose `Description`
was set to `d` (lines 187-189). -/
inductive Cmd where
  | fstat (args : List String)
  | sync (path : String)
  | haveCmd (path : String)
  | revert (args : List String)
  | saveChange (description : String)
  | add (chgno : String) (ftype : String) (localPath : String)
  | opened (chgno : String)
deriving DecidableEq

/-- The add loop of `CopySnapshot.run` (lines 195-208): for each `FileRev`
in the `srcFiles` dict (in insertion order), look up the local path under the
(possibly lower-cased) depot file — a missing entry raises `KeyError` — and
issue `add -c chgno -ft type localPath`.  Returns the commands issued and
the outcome (the trace stops at a raised KeyError). -/
def addLoop (cs : Bool) (chgno : String) (localFiles : List (String × String)) :
    List (String × FileRev) → List Cmd × Except String Unit
  | [] => ([], .ok ())
  | (_, v) :: rest =>
    let k := if cs then v.depotFile else pyLower v.depotFile
    match dget localFiles k with
    | none => ([], .error "KeyError: localFiles")
    | some localPath =>
      let r := addLoop cs chgno localFiles rest
      (Cmd.add chgno v.type localPath :: r.1, r.2)

/-- Inputs of one execution of `CopySnapshot.run`: the configured source path
and case sensitivity, and the server replies consumed by the run (fstat
records, `have` records, the output line of `save_change`, and the reply to
`opened`). -/
structure RunEnv where
  source : String
  cs : Bool
  srcFstat : List Rec
  haveList : List Rec
  saveOutput : String
  openedReply : List Rec

/-- Result of one execution of `CopySnapshot.run`: the ordered trace of
Perforce commands issued, the outcome (`error` when a Python exception
propagates), and — when the run reaches the final check of line 210 —
whether the count of opened files equalled the count of intended files. -/
structure RunResult where
  trace : List Cmd
  outcome : Except String Unit
  countMatch : Option Bool

/-- Embedding of `CopySnapshot.run` (lines 163-217).  The steps in source
order: `fstat -Ol <source>`; build `srcFiles` via `getFilesToAdd`;
`sync <source>`; `have <haveSource>` where `haveSource` is the source path
cut at the first `@` when one is present (lines 174-176); build `localFiles`;
`revert -k //...` on the target (line 186); save a new pending change whose
description is `Import of snapshot <source>` (lines 187-189); abort when the
server reply reports no created change number (lines 190-192); otherwise run
the add loop and finally query `opened -c <chgno>` and compare counts
(lines 209-213). -/
def run (env : RunEnv) : RunResult :=
  match getFilesToAdd env.cs env.srcFstat with
  | .error e => ⟨[Cmd.fstat ["-Ol", env.source]], .error e, none⟩
  | .ok srcFiles =>
    let haveSource := if pyIn "@" env.source then beforeFirstAt env.source
                      else env.source
    match buildLocalFiles env.cs env.haveList with
    | .error e =>
        ⟨[Cmd.fstat ["-Ol", env.source], Cmd.sync env.source,
          Cmd.haveCmd haveSource], .error e, none⟩
    | .ok localFiles =>
      let base := [Cmd.fstat ["-Ol", env.source], Cmd.sync env.source,
                   Cmd.haveCmd haveSource, Cmd.revert ["-k", "//..."],
                   Cmd.saveChange ("Import of snapshot " ++ env.source)]
      match findCreatedChange env.saveOutput with
      | none => ⟨base, .error "Failed to create changelist", none⟩
      | some chgno =>
        match addLoop env.cs chgno localFiles srcFiles with
        | (tr, .error e) => ⟨base ++ tr, .error e, none⟩
        | (tr, .ok _) =>
            ⟨base ++ tr ++ [Cmd.opened chgno], .ok (),
             some (env.openedReply.length == srcFiles.length)⟩

/-- Embedding of the configuration check of `CopySnapshot.__init__`
(lines 126-129): when no config file is given (Python falsiness: `None` or
the empty string) or the named file does not exist, the process prints help
and exits; the returned value is the exit status passed to `sys.exit`, or
`none` when the check passes.  `pathExists` stands for `os.path.exists`. -/
def configErrorCheck (config : Option String) (pathExists : String → Bool) :
    Option Nat :=
  match config with
  | none => some 1
  | some c => if c == "" then some 1
              else if !(pathExists c) then some 1
              else none

/-- Digits of a character list read as a natural number. -/
def digitsToNat (l : List Char) : Nat :=
  l.foldl (fun acc c => acc * 10 + (c.toNat - 48)) 0

/-- Python `int(s)` on the counter strings handled here: an optional sign
followed by a non-empty digit run; anything else raises `ValueError`
(modelled as `none`). -/
def pyIntParse (s : String) : Option Int :=
  match s.toList with
  | '-' :: rest =>
      if !rest.isEmpty && rest.all Char.isDigit
      then some (-(digitsToNat rest : Int)) else none
  | '+' :: rest =>
      if !rest.isEmpty && rest.all Char.isDigit
      then some (digitsToNat rest : Int) else none
  | l => if !l.isEmpty && l.all Char.isDigit
         then some (digitsToNat l : Int) else none

/-- Embedding of `P4Server.getCounter` (test/TestP4Transfer.py lines
172-177): when the reply list is non-empty and its first record carries a
`counter` key, return `int` of that record's `value` (KeyError when `value`
is absent, ValueError when it does not parse); otherwise return 0. -/
def getCounter (result : List Rec) : Except String Int :=
  match result with
  | [] => .ok 0
  | r :: _ =>
    if (dget r "counter").isSome then
      match dget r "value" with
      | none => .error "KeyError: value"
      | some v =>
        match pyIntParse v with
        | none => .error "ValueError"
        | some n => .ok n
    else .ok 0

/-! ### Basic lemmas about the dict model and `FileRev` construction -/

theorem dget_dinsert {α : Type} (m : List (String × α)) (k0 k : String) (v : α) :
    dget (dinsert m k0 v) k = if k0 == k then some v else dget m k := by
  induction m with
  | nil =>
    by_cases h : k0 == k <;> simp [dinsert, dget, h]
  | cons p rest ih =>
    obtain ⟨k', v'⟩ := p
    by_cases h1 : k' == k0
    · have hk : k' = k0 := by simpa using h1
      subst hk
      by_cases h2 : k' == k <;> simp [dinsert, dget, h1, h2]
    · by_cases h2 : k' == k
      · have hk : k' = k := by simpa using h2
        subst hk
        have : ¬ (k0 == k') := by
          intro hc
          exact h1 (by simp_all)
        simp [dinsert, dget, h1, h2, this]
      · simp [dinsert, dget, h1, h2, ih]

theorem dinsert_mem {α : Type} (m : List (String × α)) (k0 : String) (v : α)
    (p : String × α) (hp : p ∈ dinsert m k0 v) : p ∈ m ∨ p = (k0, v) := by
  induction m with
  | nil => simp [dinsert] at hp; simp [hp]
  | cons q rest ih =>
    obtain ⟨k', v'⟩ := q
    by_cases h1 : k' == k0
    · simp [dinsert, h1] at hp
      rcases hp with h | h
      · right; simp [h]
      · left; simp [h]
    · simp [dinsert, h1] at hp
      rcases hp with h | h
      · left; simp [h]
      · rcases ih h with h2 | h2
        · left; simp [h2]
        · right; exact h2

/-- Unfolding of `mkFileRev` on a record that has all five required keys. -/
theorem mkFileRev_eq_some (f : Rec) (d a r c t : String)
    (hd : dget f "depotFile" = some d) (ha : dget f "headAction" = some a)
    (hr : dget f "headRev" = some r) (hc : dget f "headChange" = some c)
    (ht : dget f "headType" = some t) :
    mkFileRev f = some
      { depotFile := d, action := a, digest := (dget f "digest").getD "",
        fileSize := (match dget f "fileSize" with
                     | some s => PyVal.str s
                     | none => PyVal.int 0),
        rev := r, change := c, type := t,
        localFile := "", fixedLocalFile := "" } := by
  simp [mkFileRev, hd, ha, hr, hc, ht]

/-- A successfully built `FileRev` reproduces the record's fields: required
keys were present and equal the stored attributes, and the optional keys
defaulted exactly as `__init__` does. -/
theorem mkFileRev_spec (f : Rec) (r : FileRev) (h : mkFileRev f = some r) :
    dget f "depotFile" = some r.depotFile ∧
    dget f "headAction" = some r.action ∧
    dget f "headRev" = some r.rev ∧
    dget f "headChange" = some r.change ∧
    dget f "headType" = some r.type ∧
    r.digest = (dget f "digest").getD "" ∧
    r.fileSize = (match dget f "fileSize" with
                  | some s => PyVal.str s
                  | none => PyVal.int 0) ∧
    r.localFile = "" := by
  cases h1 : dget f "depotFile" with
  | none => simp [mkFileRev, h1] at h
  | some d =>
  cases h2 : dget f "headAction" with
  | none => simp [mkFileRev, h1, h2] at h
  | some a =>
  cases h3 : dget f "headRev" with
  | none => simp [mkFileRev, h1, h2, h3] at h
  | some rv =>
  cases h4 : dget f "headChange" with
  | none => simp [mkFileRev, h1, h2, h3, h4] at h
  | some c =>
  cases h5 : dget f "headType" with
  | none => simp [mkFileRev, h1, h2, h3, h4, h5] at h
  | some t =>
  have := mkFileRev_eq_some f d a rv c t h1 h2 h3 h4 h5
  rw [this] at h
  injection h with h
  subst h
  simp [h1, h2, h3, h4, h5]

/-! ### Characterization of `FileRev.__eq__` -/

theorem fileRevEqTail_iff (a b : FileRev) :
    fileRevEqTail a b = true ↔
      ((pyIn "delete" a.action = true ∧ pyIn "delete" b.action = true) ∨
       (a.fileSize = b.fileSize ∧ a.digest = b.digest)) := by
  cases hda : pyIn "delete" a.action <;> cases hdb : pyIn "delete" b.action <;>
    by_cases hfs : a.fileSize = b.fileSize <;>
    by_cases hdg : a.digest = b.digest <;>
    simp [fileRevEqTail, hda, hdb, hfs, hdg]

theorem fileRevEq_iff (cs : Bool) (a b : FileRev) :
    fileRevEq cs a b = true ↔
      ((if cs then a.localFile = b.localFile
        else pyLower a.localFile = pyLower b.localFile) ∧
       ((pyIn "delete" a.action = true ∧ pyIn "delete" b.action = true) ∨
        (a.fileSize = b.fileSize ∧ a.digest = b.digest))) := by
  cases cs
  · by_cases h : pyLower a.localFile = pyLower b.localFile <;>
      simp [fileRevEq, h, fileRevEqTail_iff]
  · by_cases h : a.localFile = b.localFile <;>
      simp [fileRevEq, h, fileRevEqTail_iff]

theorem fileRevEq_comm (cs : Bool) (a b : FileRev) :
    fileRevEq cs a b = fileRevEq cs b a := by
  have key : ∀ x y : FileRev, fileRevEq cs x y = true → fileRevEq cs y x = true := by
    intro x y h
    rw [fileRevEq_iff] at h ⊢
    obtain ⟨h1, h2⟩ := h
    refine ⟨?_, ?_⟩
    · cases cs <;> simp_all
    · rcases h2 with ⟨p, q⟩ | ⟨p, q⟩
      · exact Or.inl ⟨q, p⟩
      · exact Or.inr ⟨p.symm, q.symm⟩
  by_cases hab : fileRevEq cs a b = true
  · rw [hab, key a b hab]
  · by_cases hba : fileRevEq cs b a = true
    · exact absurd (key b a hba) hab
    · rw [Bool.not_eq_true] at hab hba
      rw [hab, hba]

theorem fileRevEq_action_congr (cs : Bool) (a b : FileRev) (act : String)
    (h : pyIn "delete" act = pyIn "delete" a.action) :
    fileRevEq cs { a with action := act } b = fileRevEq cs a b := by
  cases cs <;> simp [fileRevEq, fileRevEqTail, h]

theorem fileRevEq_meta_congr (cs : Bool) (a b : FileRev) (rv ch ty : String) :
    fileRevEq cs { a with rev := rv, change := ch, type := ty } b =
      fileRevEq cs a b := rfl

/-! ### Claims C6, C8, C7, C3 -/

/-- C6: constructing a `FileRev` from any fstat record that contains the keys
`depotFile`, `headAction`, `headRev`, `headChange` and `headType` succeeds
even when `digest` or `fileSize` is absent: the digest then defaults to the
empty string and the file size to the int `0`, and no error is raised. -/
theorem claim_C6 (f : Rec) (d a r c t : String)
    (hd : dget f "depotFile" = some d) (ha : dget f "headAction" = some a)
    (hr : dget f "headRev" = some r) (hc : dget f "headChange" = some c)
    (ht : dget f "headType" = some t) :
    ∃ fr, mkFileRev f = some fr ∧
      fr.digest = (dget f "digest").getD "" ∧
      (dget f "digest" = none → fr.digest = "") ∧
      (dget f "fileSize" = none → fr.fileSize = PyVal.int 0) ∧
      (∀ s, dget f "fileSize" = some s → fr.fileSize = PyVal.str s) := by
  refine ⟨_, mkFileRev_eq_some f d a r c t hd ha hr hc ht, rfl, ?_, ?_, ?_⟩
  · intro h; simp [h]
  · intro h; simp [h]
  · intro s h; simp [h]

/-- Witness for C6 on a concrete record with only the five required keys. -/
theorem claim_C6_witness :
    ∃ fr, mkFileRev [("depotFile", "//d/a"), ("headAction", "add"),
        ("headRev", "1"), ("headChange", "7"), ("headType", "text")] = some fr ∧
      fr.digest = (dget [("depotFile", "//d/a"), ("headAction", "add"),
        ("headRev", "1"), ("headChange", "7"), ("headType", "text")] "digest").getD "" ∧
      (dget [("depotFile", "//d/a"), ("headAction", "add"), ("headRev", "1"),
        ("headChange", "7"), ("headType", "text")] "digest" = none → fr.digest = "") ∧
      (dget [("depotFile", "//d/a"), ("headAction", "add"), ("headRev", "1"),
        ("headChange", "7"), ("headType", "text")] "fileSize" = none →
          fr.fileSize = PyVal.int 0) ∧
      (∀ s, dget [("depotFile", "//d/a"), ("headAction", "add"), ("headRev", "1"),
        ("headChange", "7"), ("headType", "text")] "fileSize" = some s →
          fr.fileSize = PyVal.str s) :=
  claim_C6 _ "//d/a" "add" "1" "7" "text" rfl rfl rfl rfl rfl

/-- C8: `FileRev` equality holds iff the local file names match (exactly when
case sensitive, case-folded otherwise) and either both actions contain the
substring `delete` or the `(fileSize, digest)` pairs are equal; the relation
is symmetric, and the `rev`, `change` and `type` attributes — and the action
beyond its delete test — never affect it. -/
theorem claim_C8 (cs : Bool) (a b : FileRev) (act rv ch ty : String) :
    (fileRevEq cs a b = true ↔
      ((if cs then a.localFile = b.localFile
        else pyLower a.localFile = pyLower b.localFile) ∧
       ((pyIn "delete" a.action = true ∧ pyIn "delete" b.action = true) ∨
        (a.fileSize = b.fileSize ∧ a.digest = b.digest)))) ∧
    fileRevEq cs a b = fileRevEq cs b a ∧
    (pyIn "delete" act = pyIn "delete" a.action →
      fileRevEq cs { a with action := act } b = fileRevEq cs a b) ∧
    fileRevEq cs { a with rev := rv, change := ch, type := ty } b =
      fileRevEq cs a b :=
  ⟨fileRevEq_iff cs a b, fileRevEq_comm cs a b,
   fun h => fileRevEq_action_congr cs a b act h,
   fileRevEq_meta_congr cs a b rv ch ty⟩

/-- Witness for C8: the action-invariance clause at concrete revisions. -/
theorem claim_C8_witness :
    fileRevEq false
      { ({ depotFile := "//d/A", action := "add", digest := "X",
           fileSize := PyVal.str "3", rev := "1", change := "2",
           type := "text", localFile := "A", fixedLocalFile := "" } : FileRev)
        with action := "edit" }
      { depotFile := "//d/a", action := "edit", digest := "X",
        fileSize := PyVal.str "3", rev := "9", change := "9",
        type := "binary", localFile := "a", fixedLocalFile := "" } =
    fileRevEq false
      { depotFile := "//d/A", action := "add", digest := "X",
        fileSize := PyVal.str "3", rev := "1", change := "2",
        type := "text", localFile := "A", fixedLocalFile := "" }
      { depotFile := "//d/a", action := "edit", digest := "X",
        fileSize := PyVal.str "3", rev := "9", change := "9",
        type := "binary", localFile := "a", fixedLocalFile := "" } :=
  (claim_C8 false
    { depotFile := "//d/A", action := "add", digest := "X",
      fileSize := PyVal.str "3", rev := "1", change := "2",
      type := "text", localFile := "A", fixedLocalFile := "" }
    { depotFile := "//d/a", action := "edit", digest := "X",
      fileSize := PyVal.str "3", rev := "9", change := "9",
      type := "binary", localFile := "a", fixedLocalFile := "" }
    "edit" "1" "2" "text").2.2.1 (by decide)

/-- C7: `P4Server.getCounter` returns the stored value parsed as an integer
when the (non-empty) server reply carries a `counter` field whose `value`
parses, and 0 when the reply is empty or carries no `counter` field. -/
theorem claim_C7 (result : List Rec) :
    (result = [] → getCounter result = .ok 0) ∧
    (∀ r rest, result = r :: rest → dget r "counter" = none →
        getCounter result = .ok 0) ∧
    (∀ r rest cv v n, result = r :: rest → dget r "counter" = some cv →
        dget r "value" = some v → pyIntParse v = some n →
        getCounter result = .ok n) := by
  refine ⟨?_, ?_, ?_⟩
  · intro h; subst h; rfl
  · intro r rest h hc; subst h; simp [getCounter, hc]
  · intro r rest cv v n h hc hv hp; subst h; simp [getCounter, hc, hv, hp]

/-- Witness for C7 on a concrete reply carrying a counter field. -/
theorem claim_C7_witness :
    getCounter [[("counter", "myctr"), ("value", "42")]] = .ok 42 :=
  (claim_C7 [[("counter", "myctr"), ("value", "42")]]).2.2
    [("counter", "myctr"), ("value", "42")] [] "myctr" "42" 42 rfl rfl rfl rfl

/-- Counterexample for C3: on a missing config file the embedded check of
`CopySnapshot.__init__` passes exit status 1 to `sys.exit`, not 2. -/
theorem claim_C3_cx :
    configErrorCheck none (fun _ => false) = some 1 ∧ (1 : Nat) ≠ 2 :=
  ⟨rfl, by decide⟩

/-- C3 (amended): on a configuration error — no config file specified (Python
falsiness: absent or empty) or the specified file does not exist — the
process exits with status 1. -/
theorem claim_C3_amended (config : Option String) (pathExists : String → Bool)
    (h : config = none ∨ config = some "" ∨
         ∃ c, config = some c ∧ pathExists c = false) :
    configErrorCheck config pathExists = some 1 := by
  rcases h with h | h | ⟨c, hc, hp⟩
  · subst h; rfl
  · subst h; rfl
  · subst hc
    by_cases he : c == ""
    · simp [configErrorCheck, he]
    · simp [configErrorCheck, he, hp]

/-- Witness for the amended C3 at a concrete missing-file configuration. -/
theorem claim_C3_amended_witness :
    configErrorCheck (some "no_such.yaml") (fun _ => false) = some 1 :=
  claim_C3_amended (some "no_such.yaml") (fun _ => false)
    (Or.inr (Or.inr ⟨"no_such.yaml", rfl, rfl⟩))

/-! ### Claims C9 and C5: `getFilesToAdd` and case sensitivity -/

/-- Specification-side predicate for C9: record `f` is one that
`getFilesToAdd` stores under key `k` — its `depotFile` (lower-cased when not
case sensitive) is `k` and its `headAction` does not contain `delete`. -/
def keyedNonDelete (cs : Bool) (k : String) (f : Rec) : Bool :=
  (match dget f "depotFile" with
   | some d => (if cs then d else pyLower d) == k
   | none => false) &&
  (match dget f "headAction" with
   | some a => !(pyIn "delete" a)
   | none => false)

/-- Specification-side function for C9: the last record of the fstat list
that is non-deleted and keyed `k` (the one a dict build keeps). -/
def lastNonDeleted (cs : Bool) (fstat : List Rec) (k : String) : Option Rec :=
  match fstat with
  | [] => none
  | f :: rest =>
    match lastNonDeleted cs rest k with
    | some g => some g
    | none => if keyedNonDelete cs k f then some f else none

theorem getFilesToAddAux_dget (cs : Bool) (fstat : List Rec)
    (hwf : ∀ f ∈ fstat, (mkFileRev f).isSome) (acc : List (String × FileRev)) :
    ∃ m, getFilesToAddAux cs acc fstat = .ok m ∧
      ∀ k, dget m k = (match lastNonDeleted cs fstat k with
                       | some g => mkFileRev g
                       | none => dget acc k) := by
  induction fstat generalizing acc with
  | nil => exact ⟨acc, rfl, fun k => rfl⟩
  | cons f rest ih =>
    have hf : (mkFileRev f).isSome := hwf f (by simp)
    obtain ⟨r, hr⟩ := Option.isSome_iff_exists.mp hf
    obtain ⟨hd, hact, _, _, _, _, _, _⟩ := mkFileRev_spec f r hr
    have hwf' : ∀ g ∈ rest, (mkFileRev g).isSome := fun g hg => hwf g (by simp [hg])
    by_cases hdel : pyIn "delete" r.action
    · obtain ⟨m, hm, hchar⟩ := ih hwf' acc
      refine ⟨m, ?_, ?_⟩
      · simp [getFilesToAddAux, hd, hr, hdel, hm]
      · intro k
        rw [hchar k]
        have hkey : keyedNonDelete cs k f = false := by
          simp [keyedNonDelete, hd, hact, hdel]
        cases hl : lastNonDeleted cs rest k <;>
          simp [lastNonDeleted, hl, hkey]
    · obtain ⟨m, hm, hchar⟩ := ih hwf'
        (dinsert acc (if cs then r.depotFile else pyLower r.depotFile) r)
      refine ⟨m, ?_, ?_⟩
      · simp [getFilesToAddAux, hd, hr, hdel, hm]
      · intro k
        rw [hchar k]
        cases hl : lastNonDeleted cs rest k with
        | some g => simp [lastNonDeleted, hl]
        | none =>
          have hkey : keyedNonDelete cs k f =
              ((if cs then r.depotFile else pyLower r.depotFile) == k) := by
            simp [keyedNonDelete, hd, hact, hdel]
          rw [dget_dinsert]
          by_cases he : (if cs then r.depotFile else pyLower r.depotFile) == k <;>
            simp [lastNonDeleted, hl, hkey, he, hr]

/-- C9: for every fstat result list whose records are well formed (every
`FileRev` constructs), `getFilesToAdd` returns a dict whose entry at any key
`k` is exactly the `FileRev` of the last record whose `headAction` does not
contain `delete` and whose `depotFile` (lower-cased when not case sensitive)
is `k` — so deleted revisions are excluded and later records overwrite
earlier ones sharing a key. -/
theorem claim_C9 (cs : Bool) (fstat : List Rec)
    (hwf : ∀ f ∈ fstat, (mkFileRev f).isSome) :
    ∃ m, getFilesToAdd cs fstat = .ok m ∧
      ∀ k, dget m k = (lastNonDeleted cs fstat k).bind mkFileRev := by
  obtain ⟨m, hm, hchar⟩ := getFilesToAddAux_dget cs fstat hwf []
  refine ⟨m, hm, fun k => ?_⟩
  rw [hchar k]
  cases hl : lastNonDeleted cs fstat k <;> simp [hl, dget]

/-- Witness for C9 on a concrete fstat list with a deleted revision and two
records sharing a key. -/
theorem claim_C9_witness :
    ∃ m, getFilesToAdd false
        [[("depotFile", "//d/A"), ("headAction", "edit"), ("headRev", "1"),
          ("headChange", "1"), ("headType", "text"), ("digest", "D1")],
         [("depotFile", "//d/B"), ("headAction", "move/delete"),
          ("headRev", "2"), ("headChange", "1"), ("headType", "text")],
         [("depotFile", "//d/a"), ("headAction", "add"), ("headRev", "3"),
          ("headChange", "2"), ("headType", "binary"), ("digest", "D2")]] = .ok m ∧
      ∀ k, dget m k = (lastNonDeleted false
        [[("depotFile", "//d/A"), ("headAction", "edit"), ("headRev", "1"),
          ("headChange", "1"), ("headType", "text"), ("digest", "D1")],
         [("depotFile", "//d/B"), ("headAction", "move/delete"),
          ("headRev", "2"), ("headChange", "1"), ("headType", "text")],
         [("depotFile", "//d/a"), ("headAction", "add"), ("headRev", "3"),
          ("headChange", "2"), ("headType", "binary"), ("digest", "D2")]] k).bind
        mkFileRev :=
  claim_C9 false _ (by decide)

theorem getFilesToAddAux_keys (cs : Bool) (fstat : List Rec)
    (acc m : List (String × FileRev))
    (h : getFilesToAddAux cs acc fstat = .ok m) :
    ∀ k r, (k, r) ∈ m → (k, r) ∈ acc ∨
      k = (if cs then r.depotFile else pyLower r.depotFile) := by
  induction fstat generalizing acc with
  | nil =>
    intro k r hk
    left
    simp only [getFilesToAddAux] at h
    injection h with h
    exact h ▸ hk
  | cons f rest ih =>
    intro k r hk
    simp only [getFilesToAddAux] at h
    split at h
    · exact absurd h (by simp)
    · rename_i d h1
      split at h
      · exact absurd h (by simp)
      · rename_i rv h2
        obtain ⟨hd, _, _, _, _, _, _, _⟩ := mkFileRev_spec f rv h2
        have hdv : d = rv.depotFile := by rw [h1] at hd; injection hd
        split at h
        · exact ih acc h k r hk
        · rcases ih _ h k r hk with hmem | hkey
          · rcases dinsert_mem _ _ _ _ hmem with hmem2 | hpair
            · exact Or.inl hmem2
            · right
              have hk2 : k = (if cs then d else pyLower d) ∧ r = rv :=
                ⟨congrArg Prod.fst hpair, congrArg Prod.snd hpair⟩
              rw [hk2.1, hk2.2, hdv]
          · exact Or.inr hkey

theorem buildLocalFilesAux_keys (cs : Bool) (haveList : List Rec)
    (acc m : List (String × String))
    (h : buildLocalFilesAux cs acc haveList = .ok m) :
    ∀ k p, (k, p) ∈ m → (k, p) ∈ acc ∨
      ∃ f ∈ haveList, ∃ d, dget f "depotFile" = some d ∧
        k = (if cs then d else pyLower d) ∧ dget f "path" = some p := by
  induction haveList generalizing acc with
  | nil =>
    intro k p hk
    left
    simp only [buildLocalFilesAux] at h
    injection h with h
    exact h ▸ hk
  | cons f rest ih =>
    intro k p hk
    simp only [buildLocalFilesAux] at h
    split at h
    · exact absurd h (by simp)
    · rename_i d h1
      split at h
      · exact absurd h (by simp)
      · rename_i q h2
        rcases ih _ h k p hk with hmem | ⟨g, hg, d', hd', hk', hp'⟩
        · rcases dinsert_mem _ _ _ _ hmem with hmem2 | hpair
          · exact Or.inl hmem2
          · right
            rw [Prod.mk.injEq] at hpair
            refine ⟨f, by simp, d, h1, hpair.1, ?_⟩
            rw [hpair.2]; exact h2
        · exact Or.inr ⟨g, by simp [hg], d', hd', hk', hp'⟩

theorem fileRevEq_false_eq (a b : FileRev) :
    fileRevEq false a b =
      ((pyLower a.localFile == pyLower b.localFile) && fileRevEqTail a b) := by
  by_cases h : pyLower a.localFile == pyLower b.localFile <;>
    simp_all [fileRevEq, bne]

theorem fileRevEq_true_eq (a b : FileRev) :
    fileRevEq true a b =
      ((a.localFile == b.localFile) && fileRevEqTail a b) := by
  by_cases h : a.localFile == b.localFile <;>
    simp_all [fileRevEq, bne]

/-- C5: when `case_sensitive` is false all path comparisons are
case-insensitive — `FileRev.__eq__` compares the local file names
lower-cased, `getFilesToAdd` keys every stored revision by the lower-cased
depot path, and the have-list dict of `run` is keyed by the lower-cased
depot path; when `case_sensitive` is true the same comparisons are exact. -/
theorem claim_C5 (a b : FileRev) (fstat haveList : List Rec) :
    (fileRevEq false a b =
      ((pyLower a.localFile == pyLower b.localFile) && fileRevEqTail a b)) ∧
    (fileRevEq true a b =
      ((a.localFile == b.localFile) && fileRevEqTail a b)) ∧
    (∀ m k r, getFilesToAdd false fstat = .ok m → (k, r) ∈ m →
        k = pyLower r.depotFile) ∧
    (∀ m k r, getFilesToAdd true fstat = .ok m → (k, r) ∈ m →
        k = r.depotFile) ∧
    (∀ m k p, buildLocalFiles false haveList = .ok m → (k, p) ∈ m →
        ∃ f ∈ haveList, ∃ d, dget f "depotFile" = some d ∧ k = pyLower d) ∧
    (∀ m k p, buildLocalFiles true haveList = .ok m → (k, p) ∈ m →
        ∃ f ∈ haveList, ∃ d, dget f "depotFile" = some d ∧ k = d) := by
  refine ⟨fileRevEq_false_eq a b, fileRevEq_true_eq a b, ?_, ?_, ?_, ?_⟩
  · intro m k r hm hk
    rcases getFilesToAddAux_keys false fstat [] m hm k r hk with hc | hc
    · cases hc
    · simpa using hc
  · intro m k r hm hk
    rcases getFilesToAddAux_keys true fstat [] m hm k r hk with hc | hc
    · cases hc
    · simpa using hc
  · intro m k p hm hk
    rcases buildLocalFilesAux_keys false haveList [] m hm k p hk with hc | hc
    · cases hc
    · obtain ⟨f, hf, d, hd, hk', _⟩ := hc
      exact ⟨f, hf, d, hd, by simpa using hk'⟩
  · intro m k p hm hk
    rcases buildLocalFilesAux_keys true haveList [] m hm k p hk with hc | hc
    · cases hc
    · obtain ⟨f, hf, d, hd, hk', _⟩ := hc
      exact ⟨f, hf, d, hd, by simpa using hk'⟩

/-- Witness for C5: the lower-cased keying of `getFilesToAdd` at a concrete
fstat list. -/
theorem claim_C5_witness :
    "//d/a" = pyLower
      ({ depotFile := "//d/A", action := "edit", digest := "",
         fileSize := PyVal.int 0, rev := "1", change := "1", type := "text",
         localFile := "", fixedLocalFile := "" } : FileRev).depotFile :=
  (claim_C5
      { depotFile := "//d/A", action := "edit", digest := "",
        fileSize := PyVal.int 0, rev := "1", change := "1", type := "text",
        localFile := "", fixedLocalFile := "" }
      { depotFile := "//d/A", action := "edit", digest := "",
        fileSize := PyVal.int 0, rev := "1", change := "1", type := "text",
        localFile := "", fixedLocalFile := "" }
      [[("depotFile", "//d/A"), ("headAction", "edit"), ("headRev", "1"),
        ("headChange", "1"), ("headType", "text")]] []).2.2.1
    [("//d/a",
      { depotFile := "//d/A", action := "edit", digest := "",
        fileSize := PyVal.int 0, rev := "1", change := "1", type := "text",
        localFile := "", fixedLocalFile := "" })]
    "//d/a"
    { depotFile := "//d/A", action := "edit", digest := "",
      fileSize := PyVal.int 0, rev := "1", change := "1", type := "text",
      localFile := "", fixedLocalFile := "" }
    rfl (by decide)

/-! ### The trace of `CopySnapshot.run`: claims C1, C2, C4, C10 -/

/-- Test for an `add` command in a trace. -/
def isAddCmd : Cmd → Bool
  | Cmd.add _ _ _ => true
  | _ => false

/-- Test for a `saveChange` command in a trace. -/
def isSaveCmd : Cmd → Bool
  | Cmd.saveChange _ => true
  | _ => false

/-- Test for a `revert` command in a trace. -/
def isRevertCmd : Cmd → Bool
  | Cmd.revert _ => true
  | _ => false

/-- The commands issued before the add loop of a run that reaches it. -/
def stdBase (env : RunEnv) (hs : String) : List Cmd :=
  [Cmd.fstat ["-Ol", env.source], Cmd.sync env.source, Cmd.haveCmd hs,
   Cmd.revert ["-k", "//..."],
   Cmd.saveChange ("Import of snapshot " ++ env.source)]

/-- Every command issued by the add loop is an `add` with the loop's change
number. -/
theorem addLoop_trace_adds (cs : Bool) (chgno : String)
    (localFiles : List (String × String)) (files : List (String × FileRev)) :
    ∀ c ∈ (addLoop cs chgno localFiles files).1, ∃ t p, c = Cmd.add chgno t p := by
  induction files with
  | nil => intro c hc; cases hc
  | cons kv rest ih =>
    obtain ⟨k0, v⟩ := kv
    intro c hc
    simp only [addLoop] at hc
    split at hc
    · cases hc
    · rcases List.mem_cons.mp hc with h | h
      · exact ⟨v.type, _, h⟩
      · exact ih c h

/-- When the add loop completes, every staged `FileRev` produced an `add`
carrying exactly its file type. -/
theorem addLoop_complete (cs : Bool) (chgno : String)
    (localFiles : List (String × String)) (files : List (String × FileRev))
    (tr : List Cmd) (h : addLoop cs chgno localFiles files = (tr, .ok ())) :
    ∀ kv ∈ files, ∃ p, Cmd.add chgno kv.2.type p ∈ tr := by
  induction files generalizing tr with
  | nil => intro kv hkv; cases hkv
  | cons kv0 rest ih =>
    obtain ⟨k0, v⟩ := kv0
    intro kv hkv
    simp only [addLoop] at h
    split at h
    · exact absurd (congrArg Prod.snd h) (by simp)
    · rename_i p hp
      have htr : Cmd.add chgno v.type p :: (addLoop cs chgno localFiles rest).1 = tr :=
        congrArg Prod.fst h
      have hok : (addLoop cs chgno localFiles rest).2 = Except.ok () :=
        congrArg Prod.snd h
      rcases List.mem_cons.mp hkv with hkv1 | hkv1
      · subst hkv1
        exact ⟨p, by rw [← htr]; simp⟩
      · obtain ⟨q, hq⟩ := ih (addLoop cs chgno localFiles rest).1
          (by rw [Prod.ext_iff]; exact ⟨rfl, hok⟩) kv hkv1
        exact ⟨q, by rw [← htr]; simp [hq]⟩

/-- Every `add` in the add-loop trace carries the type of one of the staged
revisions. -/
theorem addLoop_sound (cs : Bool) (chgno : String)
    (localFiles : List (String × String)) (files : List (String × FileRev)) :
    ∀ c t p, Cmd.add c t p ∈ (addLoop cs chgno localFiles files).1 →
      c = chgno ∧ ∃ kv ∈ files, t = kv.2.type := by
  induction files with
  | nil => intro c t p hc; cases hc
  | cons kv0 rest ih =>
    obtain ⟨k0, v⟩ := kv0
    intro c t p hc
    simp only [addLoop] at hc
    split at hc
    · cases hc
    · rcases List.mem_cons.mp hc with h | h
      · injection h with h1 h2 _
        exact ⟨h1, ⟨(k0, v), by simp, h2⟩⟩
      · obtain ⟨h1, kv, hkv, h2⟩ := ih c t p h
        exact ⟨h1, kv, by simp [hkv], h2⟩

/-- Case analysis of `CopySnapshot.run`: the five possible outcomes with
their exact traces. -/
theorem run_shape (env : RunEnv) :
    ∃ hs, hs = (if pyIn "@" env.source then beforeFirstAt env.source
                else env.source) ∧
    ((∃ e, run env = ⟨[Cmd.fstat ["-Ol", env.source]], .error e, none⟩) ∨
     (∃ e, run env = ⟨[Cmd.fstat ["-Ol", env.source], Cmd.sync env.source,
                       Cmd.haveCmd hs], .error e, none⟩) ∨
     (findCreatedChange env.saveOutput = none ∧
       run env = ⟨stdBase env hs, .error "Failed to create changelist", none⟩) ∨
     (∃ chgno srcFiles lf tr e,
       getFilesToAdd env.cs env.srcFstat = .ok srcFiles ∧
       buildLocalFiles env.cs env.haveList = .ok lf ∧
       findCreatedChange env.saveOutput = some chgno ∧
       addLoop env.cs chgno lf srcFiles = (tr, .error e) ∧
       run env = ⟨stdBase env hs ++ tr, .error e, none⟩) ∨
     (∃ chgno srcFiles lf tr,
       getFilesToAdd env.cs env.srcFstat = .ok srcFiles ∧
       buildLocalFiles env.cs env.haveList = .ok lf ∧
       findCreatedChange env.saveOutput = some chgno ∧
       addLoop env.cs chgno lf srcFiles = (tr, .ok ()) ∧
       run env = ⟨stdBase env hs ++ tr ++ [Cmd.opened chgno], .ok (),
                  some (env.openedReply.length == srcFiles.length)⟩)) := by
  refine ⟨_, rfl, ?_⟩
  cases h1 : getFilesToAdd env.cs env.srcFstat with
  | error e =>
    exact Or.inl ⟨e, by simp [run, h1]⟩
  | ok srcFiles =>
  cases h2 : buildLocalFiles env.cs env.haveList with
  | error e =>
    exact Or.inr (Or.inl ⟨e, by simp [run, h1, h2]⟩)
  | ok lf =>
  cases h3 : findCreatedChange env.saveOutput with
  | none =>
    exact Or.inr (Or.inr (Or.inl ⟨rfl, by simp [run, h1, h2, h3, stdBase]⟩))
  | some chgno =>
  cases h4 : addLoop env.cs chgno lf srcFiles with
  | mk tr out =>
  cases out with
  | error e =>
    exact Or.inr (Or.inr (Or.inr (Or.inl
      ⟨chgno, srcFiles, lf, tr, e, rfl, rfl, rfl, h4,
       by simp [run, h1, h2, h3, h4, stdBase]⟩)))
  | ok u =>
    cases u
    exact Or.inr (Or.inr (Or.inr (Or.inr
      ⟨chgno, srcFiles, lf, tr, rfl, rfl, rfl, h4,
       by simp [run, h1, h2, h3, h4, stdBase]⟩)))

/-- When a list decomposes as add-free commands followed by anything, any
decomposition isolating an `add` puts the whole add-free part before it. -/
theorem base_before_add (base : List Cmd) :
    ∀ (rest l1 l2 : List Cmd) (x : Cmd),
      base ++ rest = l1 ++ x :: l2 → (∀ y ∈ base, isAddCmd y = false) →
      isAddCmd x = true → ∀ y ∈ base, y ∈ l1 := by
  induction base with
  | nil => intro rest l1 l2 x _ _ _ y hy; cases hy
  | cons b bs ih =>
    intro rest l1 l2 x heq hbase hx y hy
    cases l1 with
    | nil =>
      simp only [List.nil_append, List.cons_append, List.cons.injEq] at heq
      rw [heq.1] at hbase
      exact absurd hx (by simp [hbase x (by simp)])
    | cons a l1' =>
      simp only [List.cons_append, List.cons.injEq] at heq
      rcases List.mem_cons.mp hy with hyb | hyb
      · rw [hyb, heq.1]; simp
      · exact List.mem_cons_of_mem a
          (ih rest l1' l2 x heq.2 (fun z hz => hbase z (by simp [hz])) hx y hyb)

/-- C1: in every run, the trace contains at most one `saveChange`, every
`saveChange` carries the description `Import of snapshot <source>`, every
`add` is preceded by the `revert -k //...` and by that `saveChange`, and when
the reply to saving the change reports no created change number the run
raises an exception and opens no file. -/
theorem claim_C1 (env : RunEnv) :
    ((run env).trace.countP (fun c => isSaveCmd c) ≤ 1) ∧
    (∀ d, Cmd.saveChange d ∈ (run env).trace →
        d = "Import of snapshot " ++ env.source) ∧
    (∀ l1 c t p l2, (run env).trace = l1 ++ Cmd.add c t p :: l2 →
        Cmd.revert ["-k", "//..."] ∈ l1 ∧
        Cmd.saveChange ("Import of snapshot " ++ env.source) ∈ l1) ∧
    (findCreatedChange env.saveOutput = none →
        (∃ e, (run env).outcome = .error e) ∧
        (∀ c t p, Cmd.add c t p ∉ (run env).trace)) := by
  obtain ⟨hs, _, hcase⟩ := run_shape env
  rcases hcase with ⟨e, hrun⟩ | ⟨e, hrun⟩ | ⟨hnone, hrun⟩ |
    ⟨chgno, srcFiles, lf, tr, e, _, _, hfound, hloop, hrun⟩ |
    ⟨chgno, srcFiles, lf, tr, _, _, hfound, hloop, hrun⟩
  · have htr : (run env).trace = [Cmd.fstat ["-Ol", env.source]] := by rw [hrun]
    have hout : (run env).outcome = .error e := by rw [hrun]
    refine ⟨by simp [htr, isSaveCmd], by simp [htr], ?_, ?_⟩
    · intro l1 c t p l2 heq
      rw [htr] at heq
      have : Cmd.add c t p ∈ [Cmd.fstat ["-Ol", env.source]] := by
        rw [heq]; simp
      simp at this
    · intro _
      exact ⟨⟨e, hout⟩, fun c t p hc => by simp [htr] at hc⟩
  · have htr : (run env).trace = [Cmd.fstat ["-Ol", env.source],
        Cmd.sync env.source, Cmd.haveCmd hs] := by rw [hrun]
    have hout : (run env).outcome = .error e := by rw [hrun]
    refine ⟨by simp [htr, isSaveCmd], by simp [htr], ?_, ?_⟩
    · intro l1 c t p l2 heq
      rw [htr] at heq
      have : Cmd.add c t p ∈ [Cmd.fstat ["-Ol", env.source],
          Cmd.sync env.source, Cmd.haveCmd hs] := by
        rw [heq]; simp
      simp at this
    · intro _
      exact ⟨⟨e, hout⟩, fun c t p hc => by simp [htr] at hc⟩
  · have htr : (run env).trace = stdBase env hs := by rw [hrun]
    have hout : (run env).outcome = .error "Failed to create changelist" := by
      rw [hrun]
    refine ⟨by simp [htr, stdBase, isSaveCmd], by simp [htr, stdBase], ?_, ?_⟩
    · intro l1 c t p l2 heq
      rw [htr] at heq
      have : Cmd.add c t p ∈ stdBase env hs := by
        rw [heq]; simp
      simp [stdBase] at this
    · intro _
      exact ⟨⟨"Failed to create changelist", hout⟩,
             fun c t p hc => by simp [htr, stdBase] at hc⟩
  · have htr : (run env).trace = stdBase env hs ++ tr := by rw [hrun]
    have hadds : ∀ y ∈ tr, ∃ t p, y = Cmd.add chgno t p := by
      intro y hy
      exact addLoop_trace_adds env.cs chgno lf srcFiles y (by rw [hloop]; exact hy)
    refine ⟨?_, ?_, ?_, ?_⟩
    · rw [htr]
      simp only [List.countP_append]
      have h0 : tr.countP (fun c => isSaveCmd c) = 0 := by
        rw [List.countP_eq_zero]
        intro y hy
        obtain ⟨t, p, hytp⟩ := hadds y hy
        simp [hytp, isSaveCmd]
      rw [h0]
      simp [stdBase, List.countP_cons, isSaveCmd]
    · intro d hd
      rw [htr] at hd
      rcases List.mem_append.mp hd with hd | hd
      · simp [stdBase] at hd
        exact hd
      · obtain ⟨t, p, hytp⟩ := hadds _ hd
        cases hytp
    · intro l1 c t p l2 heq
      rw [htr] at heq
      have hbase : ∀ y ∈ stdBase env hs, isAddCmd y = false := by
        intro y hy
        simp [stdBase] at hy
        rcases hy with h | h | h | h | h <;> simp [h, isAddCmd]
      have hsub := base_before_add (stdBase env hs) tr l1 l2 (Cmd.add c t p)
        heq hbase (by simp [isAddCmd])
      exact ⟨hsub _ (by simp [stdBase]), hsub _ (by simp [stdBase])⟩
    · intro hfc
      rw [hfound] at hfc
      cases hfc
  · have htr : (run env).trace = stdBase env hs ++ (tr ++ [Cmd.opened chgno]) := by
      rw [hrun]; simp [List.append_assoc]
    have hadds : ∀ y ∈ tr, ∃ t p, y = Cmd.add chgno t p := by
      intro y hy
      exact addLoop_trace_adds env.cs chgno lf srcFiles y (by rw [hloop]; exact hy)
    refine ⟨?_, ?_, ?_, ?_⟩
    · rw [htr]
      simp only [List.countP_append]
      have h0 : tr.countP (fun c => isSaveCmd c) = 0 := by
        rw [List.countP_eq_zero]
        intro y hy
        obtain ⟨t, p, hytp⟩ := hadds y hy
        simp [hytp, isSaveCmd]
      rw [h0]
      simp [stdBase, List.countP_cons, isSaveCmd]
    · intro d hd
      rw [htr] at hd
      rcases List.mem_append.mp hd with hd | hd
      · simp [stdBase] at hd
        exact hd
      · rcases List.mem_append.mp hd with hd | hd
        · obtain ⟨t, p, hytp⟩ := hadds _ hd
          cases hytp
        · simp at hd
    · intro l1 c t p l2 heq
      rw [htr] at heq
      have hbase : ∀ y ∈ stdBase env hs, isAddCmd y = false := by
        intro y hy
        simp [stdBase] at hy
        rcases hy with h | h | h | h | h <;> simp [h, isAddCmd]
      have hsub := base_before_add (stdBase env hs) (tr ++ [Cmd.opened chgno])
        l1 l2 (Cmd.add c t p) heq hbase (by simp [isAddCmd])
      exact ⟨hsub _ (by simp [stdBase]), hsub _ (by simp [stdBase])⟩
    · intro hfc
      rw [hfound] at hfc
      cases hfc

/-- Witness for C1: on a save reply without a created-change message the run
errors out and opens nothing. -/
theorem claim_C1_witness :
    (∃ e, (run ⟨"//depot/src/...@100", true, [], [], "nothing here",
                []⟩).outcome = .error e) ∧
    (∀ c t p, Cmd.add c t p ∉
        (run ⟨"//depot/src/...@100", true, [], [],
              "nothing here", []⟩).trace) :=
  (claim_C1 ⟨"//depot/src/...@100", true, [], [], "nothing here", []⟩).2.2.2 rfl

/-- C4: on a completed run, every staged non-deleted source revision yields
an `add` command carrying exactly that revision's file type (the `-ft` forced
type of line 205), every `add` in the trace carries the type of one of the
staged revisions, and the stored type is the record's `headType`. -/
theorem claim_C4 (env : RunEnv) (m : List (String × FileRev))
    (hm : getFilesToAdd env.cs env.srcFstat = .ok m)
    (hok : (run env).outcome = .ok ()) :
    (∀ k r, (k, r) ∈ m → ∃ chg p, Cmd.add chg r.type p ∈ (run env).trace) ∧
    (∀ chg t p, Cmd.add chg t p ∈ (run env).trace →
        ∃ k r, (k, r) ∈ m ∧ t = r.type) ∧
    (∀ f r, mkFileRev f = some r → dget f "headType" = some r.type) := by
  obtain ⟨hs, _, hcase⟩ := run_shape env
  rcases hcase with ⟨e, hrun⟩ | ⟨e, hrun⟩ | ⟨_, hrun⟩ |
    ⟨chgno, srcFiles, lf, tr, e, _, _, _, _, hrun⟩ |
    ⟨chgno, srcFiles, lf, tr, h1, _, _, hloop, hrun⟩
  · exact absurd (by rw [hrun] : (run env).outcome = .error e) (by simp [hok])
  · exact absurd (by rw [hrun] : (run env).outcome = .error e) (by simp [hok])
  · exact absurd
      (by rw [hrun] : (run env).outcome = .error "Failed to create changelist")
      (by simp [hok])
  · exact absurd (by rw [hrun] : (run env).outcome = .error e) (by simp [hok])
  · have hms : m = srcFiles := by
      rw [hm] at h1
      injection h1
    subst hms
    have htr : (run env).trace = stdBase env hs ++ (tr ++ [Cmd.opened chgno]) := by
      rw [hrun]; simp [List.append_assoc]
    refine ⟨?_, ?_, ?_⟩
    · intro k r hkr
      obtain ⟨p, hp⟩ := addLoop_complete env.cs chgno lf m tr hloop (k, r) hkr
      exact ⟨chgno, p, by rw [htr]; simp [hp]⟩
    · intro chg t p hc
      rw [htr] at hc
      rcases List.mem_append.mp hc with hc | hc
      · simp [stdBase] at hc
      · rcases List.mem_append.mp hc with hc | hc
        · obtain ⟨_, kv, hkv, ht⟩ := addLoop_sound env.cs chgno lf m chg t p
            (by rw [hloop]; exact hc)
          exact ⟨kv.1, kv.2, by simpa using hkv, ht⟩
        · simp at hc
    · intro f r hf
      exact (mkFileRev_spec f r hf).2.2.2.2.1

/-- Witness for C4 on a concrete one-file run: the add command carries the
source revision's type `ktext`. -/
theorem claim_C4_witness :
    ∃ chg p, Cmd.add chg
      ({ depotFile := "//d/a", action := "add", digest := "",
         fileSize := PyVal.int 0, rev := "1", change := "1", type := "ktext",
         localFile := "", fixedLocalFile := "" } : FileRev).type p ∈
      (run ⟨"//d/...", true,
        [[("depotFile", "//d/a"), ("headAction", "add"), ("headRev", "1"),
          ("headChange", "1"), ("headType", "ktext")]],
        [[("depotFile", "//d/a"), ("path", "/ws/a")]],
        "Change 9 created.", []⟩).trace :=
  (claim_C4 ⟨"//d/...", true,
      [[("depotFile", "//d/a"), ("headAction", "add"), ("headRev", "1"),
        ("headChange", "1"), ("headType", "ktext")]],
      [[("depotFile", "//d/a"), ("path", "/ws/a")]],
      "Change 9 created.", []⟩
    [("//d/a",
      { depotFile := "//d/a", action := "add", digest := "",
        fileSize := PyVal.int 0, rev := "1", change := "1", type := "ktext",
        localFile := "", fixedLocalFile := "" })]
    rfl rfl).1 "//d/a"
    { depotFile := "//d/a", action := "add", digest := "",
      fileSize := PyVal.int 0, rev := "1", change := "1", type := "ktext",
      localFile := "", fixedLocalFile := "" }
    (by decide)

/-- C10: when the configured source path contains an `@` revision specifier,
every `have` query of the run uses only the text before the first `@`, while
every `fstat` and `sync` of the run uses the full path with the specifier;
and a run that reaches the sync step does issue that `have` query. -/
theorem claim_C10 (env : RunEnv) (hat : pyIn "@" env.source = true) :
    (∀ p, Cmd.haveCmd p ∈ (run env).trace → p = beforeFirstAt env.source) ∧
    (∀ args, Cmd.fstat args ∈ (run env).trace → args = ["-Ol", env.source]) ∧
    (∀ p, Cmd.sync p ∈ (run env).trace → p = env.source) ∧
    ((∃ p, Cmd.sync p ∈ (run env).trace) →
        Cmd.haveCmd (beforeFirstAt env.source) ∈ (run env).trace) := by
  obtain ⟨hs, hhs, hcase⟩ := run_shape env
  rw [hat] at hhs
  simp at hhs
  rcases hcase with ⟨e, hrun⟩ | ⟨e, hrun⟩ | ⟨_, hrun⟩ |
    ⟨chgno, srcFiles, lf, tr, e, _, _, _, hloop, hrun⟩ |
    ⟨chgno, srcFiles, lf, tr, _, _, _, hloop, hrun⟩
  · have htr : (run env).trace = [Cmd.fstat ["-Ol", env.source]] := by rw [hrun]
    refine ⟨?_, ?_, ?_, ?_⟩
    · intro p hp; rw [htr] at hp; simp at hp
    · intro args hp; rw [htr] at hp; simpa using hp
    · intro p hp; rw [htr] at hp; simp at hp
    · intro ⟨p, hp⟩; rw [htr] at hp; simp at hp
  · have htr : (run env).trace = [Cmd.fstat ["-Ol", env.source],
        Cmd.sync env.source, Cmd.haveCmd hs] := by rw [hrun]
    refine ⟨?_, ?_, ?_, ?_⟩
    · intro p hp; rw [htr] at hp; simp at hp; rw [hp, hhs]
    · intro args hp; rw [htr] at hp; simpa using hp
    · intro p hp; rw [htr] at hp; simpa using hp
    · intro _; rw [htr, ← hhs]; simp
  · have htr : (run env).trace = stdBase env hs := by rw [hrun]
    refine ⟨?_, ?_, ?_, ?_⟩
    · intro p hp; rw [htr] at hp; simp [stdBase] at hp; rw [hp, hhs]
    · intro args hp; rw [htr] at hp; simp [stdBase] at hp; exact hp
    · intro p hp; rw [htr] at hp; simp [stdBase] at hp; exact hp
    · intro _; rw [htr, ← hhs]; simp [stdBase]
  · have htr : (run env).trace = stdBase env hs ++ tr := by rw [hrun]
    have hadds : ∀ y ∈ tr, ∃ t p, y = Cmd.add chgno t p := by
      intro y hy
      exact addLoop_trace_adds env.cs chgno lf srcFiles y (by rw [hloop]; exact hy)
    refine ⟨?_, ?_, ?_, ?_⟩
    · intro p hp
      rw [htr] at hp
      rcases List.mem_append.mp hp with hp | hp
      · simp [stdBase] at hp; rw [hp, hhs]
      · obtain ⟨t, q, h⟩ := hadds _ hp; cases h
    · intro args hp
      rw [htr] at hp
      rcases List.mem_append.mp hp with hp | hp
      · simp [stdBase] at hp; exact hp
      · obtain ⟨t, q, h⟩ := hadds _ hp; cases h
    · intro p hp
      rw [htr] at hp
      rcases List.mem_append.mp hp with hp | hp
      · simp [stdBase] at hp; exact hp
      · obtain ⟨t, q, h⟩ := hadds _ hp; cases h
    · intro _
      rw [htr, ← hhs]
      simp [stdBase]
  · have htr : (run env).trace = stdBase env hs ++ (tr ++ [Cmd.opened chgno]) := by
      rw [hrun]; simp [List.append_assoc]
    have hadds : ∀ y ∈ tr, ∃ t p, y = Cmd.add chgno t p := by
      intro y hy
      exact addLoop_trace_adds env.cs chgno lf srcFiles y (by rw [hloop]; exact hy)
    refine ⟨?_, ?_, ?_, ?_⟩
    · intro p hp
      rw [htr] at hp
      rcases List.mem_append.mp hp with hp | hp
      · simp [stdBase] at hp; rw [hp, hhs]
      · rcases List.mem_append.mp hp with hp | hp
        · obtain ⟨t, q, h⟩ := hadds _ hp; cases h
        · simp at hp
    · intro args hp
      rw [htr] at hp
      rcases List.mem_append.mp hp with hp | hp
      · simp [stdBase] at hp; exact hp
      · rcases List.mem_append.mp hp with hp | hp
        · obtain ⟨t, q, h⟩ := hadds _ hp; cases h
        · simp at hp
    · intro p hp
      rw [htr] at hp
      rcases List.mem_append.mp hp with hp | hp
      · simp [stdBase] at hp; exact hp
      · rcases List.mem_append.mp hp with hp | hp
        · obtain ⟨t, q, h⟩ := hadds _ hp; cases h
        · simp at hp
    · intro _
      rw [htr, ← hhs]
      simp [stdBase]

/-- Witness for C10: the concrete run issues `have` on the path cut at `@`. -/
theorem claim_C10_witness :
    Cmd.haveCmd (beforeFirstAt "//d/...@52342") ∈
      (run ⟨"//d/...@52342", true,
        [[("depotFile", "//d/a"), ("headAction", "add"), ("headRev", "1"),
          ("headChange", "1"), ("headType", "text")]],
        [[("depotFile", "//d/a"), ("path", "/ws/a")]],
        "Change 9 created.", []⟩).trace :=
  (claim_C10 ⟨"//d/...@52342", true,
      [[("depotFile", "//d/a"), ("headAction", "add"), ("headRev", "1"),
        ("headChange", "1"), ("headType", "text")]],
      [[("depotFile", "//d/a"), ("path", "/ws/a")]],
      "Change 9 created.", []⟩ (by decide)).2.2.2
    ⟨"//d/...@52342", by decide⟩

/-- Run environment exhibiting the count-only final check: one intended file
`//d/a`, but the server's `opened` reply lists a different file `//d/b`. -/
def envC2 : RunEnv :=
  ⟨"//d/...", true,
   [[("depotFile", "//d/a"), ("headAction", "add"), ("headRev", "1"),
     ("headChange", "1"), ("headType", "text")]],
   [[("depotFile", "//d/a"), ("path", "/ws/a")]],
   "Change 9 created.",
   [[("depotFile", "//d/b")]]⟩

/-- Counterexample for C2: the final check of `run` (lines 209-213) compares
only counts.  Here the set of opened files (`//d/b`) differs from the
intended set (`//d/a`), yet the run reports the count as expected, completes
without error, and issues no revert after the initial one (the last command
is the `opened` query itself), so extra opens are never reverted. -/
theorem claim_C2_cx :
    (run envC2).countMatch = some true ∧
    (run envC2).outcome = .ok () ∧
    (∃ m, getFilesToAdd envC2.cs envC2.srcFstat = .ok m ∧
       m.map (fun kv => kv.2.depotFile) = ["//d/a"]) ∧
    envC2.openedReply.map (fun r => dget r "depotFile") = [some "//d/b"] ∧
    (run envC2).trace.countP (fun c => isRevertCmd c) = 1 ∧
    (run envC2).trace.getLast? = some (Cmd.opened "9") := by
  refine ⟨rfl, rfl, ⟨_, rfl, rfl⟩, rfl, rfl, rfl⟩

/-- C2 (amended): after staging, the executor compares only the count of
opened files with the count of intended files — the recorded check outcome is
exactly the equality of the two lengths; the opened and intended sets are
never compared element-wise, and extra opens are not reverted: the only
revert of the whole run is the initial one, and the `opened` query is the
final command. -/
theorem claim_C2_amended (env : RunEnv) (b : Bool)
    (h : (run env).countMatch = some b) :
    ∃ srcFiles chgno,
      getFilesToAdd env.cs env.srcFstat = .ok srcFiles ∧
      b = (env.openedReply.length == srcFiles.length) ∧
      (run env).trace.getLast? = some (Cmd.opened chgno) ∧
      (run env).trace.countP (fun c => isRevertCmd c) = 1 := by
  obtain ⟨hs, _, hcase⟩ := run_shape env
  rcases hcase with ⟨e, hrun⟩ | ⟨e, hrun⟩ | ⟨_, hrun⟩ |
    ⟨chgno, srcFiles, lf, tr, e, _, _, _, _, hrun⟩ |
    ⟨chgno, srcFiles, lf, tr, h1, _, _, hloop, hrun⟩
  · have hcm : (run env).countMatch = none := by rw [hrun]
    rw [hcm] at h; cases h
  · have hcm : (run env).countMatch = none := by rw [hrun]
    rw [hcm] at h; cases h
  · have hcm : (run env).countMatch = none := by rw [hrun]
    rw [hcm] at h; cases h
  · have hcm : (run env).countMatch = none := by rw [hrun]
    rw [hcm] at h; cases h
  · have hcm : (run env).countMatch =
        some (env.openedReply.length == srcFiles.length) := by rw [hrun]
    rw [hcm] at h
    injection h with h
    have htr : (run env).trace = (stdBase env hs ++ tr) ++ [Cmd.opened chgno] := by
      rw [hrun]
    have hadds : ∀ y ∈ tr, ∃ t p, y = Cmd.add chgno t p := by
      intro y hy
      exact addLoop_trace_adds env.cs chgno lf srcFiles y (by rw [hloop]; exact hy)
    refine ⟨srcFiles, chgno, h1, h.symm, ?_, ?_⟩
    · rw [htr, List.getLast?_concat]
    · rw [htr]
      simp only [List.countP_append]
      have h0 : tr.countP (fun c => isRevertCmd c) = 0 := by
        rw [List.countP_eq_zero]
        intro y hy
        obtain ⟨t, p, hytp⟩ := hadds y hy
        simp [hytp, isRevertCmd]
      rw [h0]
      simp [stdBase, List.countP_cons, isRevertCmd]

/-- Witness for the amended C2 at the concrete environment of the
counterexample. -/
theorem claim_C2_amended_witness :
    ∃ srcFiles chgno,
      getFilesToAdd envC2.cs envC2.srcFstat = .ok srcFiles ∧
      true = (envC2.openedReply.length == srcFiles.length) ∧
      (run envC2).trace.getLast? = some (Cmd.opened chgno) ∧
      (run envC2).trace.countP (fun c => isRevertCmd c) = 1 :=
  claim_C2_amended envC2 true rfl

end CopySnapshot
